import Mathlib

/-!
Verification of the citation-processing backend (`backend/app/main.py`).

The document text is modelled as `List Char`.  Python string slicing
`text[a:b]` (with non-negative clamped indices) is `pySlice`, `re.search`
on a literal pattern is `findSubstr` (index of the leftmost occurrence),
and `re.findall` with the lazy delimited-block patterns used by
`_parse_suggestions` is `extractBlocks`.  The two external collaborators
(the Anthropic LLM client and `bibtexparser.loads`) are passed in as
function parameters: `complete` maps a prompt to the reply text, and
`loads` maps a BibTeX string to `none` (the library raised) or `some`
list of entry field-mappings.  Functions returning a pair `(r, n)` carry
in `n` the number of LLM invocations performed, so that "the LLM is not
invoked" is expressible.
-/

/-- Python slice `l[a:b]` for natural `a`, `b`: characters with index in
`[a, min b (length l))`. -/
def pySlice (l : List Char) (a b : Nat) : List Char :=
  (l.take b).drop a

/-- Index of the leftmost occurrence of `pat` in `s`
(`re.search` on a literal pattern; `match.start()`). -/
def findSubstr (pat : List Char) : List Char → Option Nat
  | [] => if pat.isEmpty then some 0 else none
  | c :: rest =>
    if pat.isPrefixOf (c :: rest) then some 0
    else (findSubstr pat rest).map (· + 1)

/-- Boolean substring containment (Python `needle in hay`). -/
def isSubstrOf (needle hay : List Char) : Bool :=
  (findSubstr needle hay).isSome

/-- The sentinel marker `<CITATION/>`. -/
def marker : List Char := "<CITATION/>".data

/-- The word checked by the prefix guard. -/
def citeWord : List Char := "cite".data

def citePat : List Char := "\\cite\x7b".data
def citetPat : List Char := "\\citet\x7b".data
def citepPat : List Char := "\\citep\x7b".data
def citeRepl : List Char := "\\cite\x7b<CITATION/>,".data
def citetRepl : List Char := "\\citet\x7b<CITATION/>,".data
def citepRepl : List Char := "\\citep\x7b<CITATION/>,".data

/-- The marker together with the trailing comma that each replacement
appends after the opening brace. -/
def markerComma : List Char := "<CITATION/>,".data

/-- The pattern/replacement table of `process_citation`, in source order. -/
def patterns : List (List Char × List Char) :=
  [(citePat, citeRepl), (citetPat, citetRepl), (citepPat, citepRepl)]

/-- The `for pattern, replacement in patterns` loop body: on the first
pattern that matches, splice the replacement over the match and stop. -/
def applyPatterns : List (List Char × List Char) → List Char → List Char
  | [], sl => sl
  | (pat, repl) :: rest, sl =>
    match findSubstr pat sl with
    | some i => sl.take i ++ repl ++ sl.drop (i + pat.length)
    | none => applyPatterns rest sl

/-- Source line `start = max(0, start - 1)` (truncated subtraction). -/
def windowStart (start : Nat) : Nat := start - 1

/-- Source line `end = min(end + 3, len(text))`. -/
def windowEnd (text : List Char) (stop : Nat) : Nat :=
  min (stop + 3) text.length

/-- Model of `CitationProcessor.process_citation(text, start, end)`. -/
def process_citation (text : List Char) (start stop : Nat) : List Char :=
  if (pySlice text start stop).take 4 ≠ citeWord ∨ start = 0 then text
  else
    let s := windowStart start
    let e2 := windowEnd text stop
    let sl := pySlice text s e2
    text.take s ++ applyPatterns patterns sl ++ text.drop e2

theorem isPrefixOf_take (p : List Char) :
    ∀ l : List Char, p.isPrefixOf l = true → l.take p.length = p := by
  induction p with
  | nil =>
    intro l _
    simp
  | cons a as ih =>
    intro l h
    cases l with
    | nil => simp [List.isPrefixOf] at h
    | cons b bs =>
      simp only [List.isPrefixOf, Bool.and_eq_true, beq_iff_eq] at h
      obtain ⟨rfl, h2⟩ := h
      simp only [List.length_cons, List.take_succ_cons, List.cons.injEq]
      exact ⟨trivial, ih bs h2⟩

theorem isPrefixOf_of_take (p : List Char) :
    ∀ l : List Char, l.take p.length = p → p.isPrefixOf l = true := by
  induction p with
  | nil =>
    intro l _
    simp [List.isPrefixOf]
  | cons a as ih =>
    intro l h
    cases l with
    | nil => simp at h
    | cons b bs =>
      simp only [List.length_cons, List.take_succ_cons, List.cons.injEq] at h
      obtain ⟨rfl, h2⟩ := h
      simp only [List.isPrefixOf, Bool.and_eq_true, beq_iff_eq]
      exact ⟨trivial, ih bs h2⟩

theorem findSubstr_spec (pat : List Char) :
    ∀ (s : List Char) (i : Nat), findSubstr pat s = some i →
      s.drop i = pat ++ s.drop (i + pat.length) := by
  intro s
  induction s with
  | nil =>
    intro i h
    simp only [findSubstr] at h
    split at h
    · rename_i hp
      rw [List.isEmpty_iff] at hp
      cases h
      simp [hp]
    · exact absurd h (by simp)
  | cons c rest ih =>
    intro i h
    simp only [findSubstr] at h
    split at h
    · rename_i hp
      cases h
      have htake := isPrefixOf_take pat (c :: rest) hp
      simp only [List.drop_zero, Nat.zero_add]
      conv_lhs => rw [← List.take_append_drop pat.length (c :: rest), htake]
    · rw [Option.map_eq_some'] at h
      obtain ⟨j, hj, rfl⟩ := h
      have hstep := ih j hj
      simpa [Nat.succ_add] using hstep

theorem findSubstr_bound (pat : List Char) (hp : pat ≠ [])
    (s : List Char) (i : Nat) (h : findSubstr pat s = some i) :
    i + pat.length ≤ s.length := by
  have hlen := congrArg List.length (findSubstr_spec pat s i h)
  simp only [List.length_drop, List.length_append] at hlen
  have hppos : 0 < pat.length := List.length_pos.mpr hp
  omega

theorem findSubstr_of_occurs (pat : List Char) :
    ∀ (s : List Char) (k : Nat), pat.isPrefixOf (s.drop k) = true →
      (findSubstr pat s).isSome = true := by
  intro s
  induction s with
  | nil =>
    intro k hk
    simp only [List.drop_nil] at hk
    have : pat = [] := by
      cases pat with
      | nil => rfl
      | cons a as => simp [List.isPrefixOf] at hk
    simp [findSubstr, this]
  | cons c rest ih =>
    intro k hk
    match k with
    | 0 =>
      simp only [List.drop_zero] at hk
      simp [findSubstr, hk]
    | Nat.succ k0 =>
      simp only [List.drop_succ_cons] at hk
      have := ih k0 hk
      by_cases hp : pat.isPrefixOf (c :: rest) <;>
        simp [findSubstr, hp, Option.isSome_map, this]

theorem pySlice_length (l : List Char) (a b : Nat) :
    (pySlice l a b).length = min b l.length - a := by
  simp [pySlice]

theorem pySlice_eq_take_drop (l : List Char) (a b : Nat) :
    pySlice l a b = (l.drop a).take (b - a) := by
  rw [pySlice, List.take_drop]
  rcases Nat.le_total a b with hab | hab
  · rw [Nat.add_sub_cancel' hab]
  · have hba : b - a = 0 := Nat.sub_eq_zero_of_le hab
    rw [hba, Nat.add_zero]
    have h1 : (l.take b).drop a = [] := by
      apply List.drop_eq_nil_of_le
      simp only [List.length_take]
      omega
    have h2 : (l.take a).drop a = [] := by
      apply List.drop_eq_nil_of_le
      simp only [List.length_take]
      omega
    rw [h1, h2]

theorem reassemble (l : List Char) (a b : Nat) (hab : a ≤ b) :
    l.take a ++ pySlice l a b ++ l.drop b = l := by
  have h1 : l.take a = (l.take b).take a := by
    rw [List.take_take, Nat.min_eq_left hab]
  rw [pySlice, h1, List.take_append_drop, List.take_append_drop]

theorem guard_bounds (text : List Char) (start stop : Nat)
    (h : (pySlice text start stop).take 4 = citeWord) :
    start + 4 ≤ text.length ∧ start + 4 ≤ stop := by
  have hlen := congrArg List.length h
  simp only [List.length_take, pySlice_length] at hlen
  have : citeWord.length = 4 := rfl
  rw [this] at hlen
  omega

theorem splice_core (l : List Char) (a b i : Nat) (pat tail : List Char)
    (hpat : pat ≠ []) (hab : a ≤ b) (hb : b ≤ l.length)
    (hf : findSubstr pat (pySlice l a b) = some i) :
    (l.take a ++ ((pySlice l a b).take i ++ (pat ++ tail)
        ++ (pySlice l a b).drop (i + pat.length)) ++ l.drop b
      = l.take (a + i + pat.length) ++ tail ++ l.drop (a + i + pat.length))
    ∧ a + i + pat.length ≤ b := by
  set w := pySlice l a b with hw
  have hwlen : w.length = b - a := by
    rw [hw, pySlice_length, Nat.min_eq_left hb]
  have hbound : i + pat.length ≤ w.length := findSubstr_bound pat hpat w i hf
  have hib : a + i + pat.length ≤ b := by omega
  refine ⟨?_, hib⟩
  have hspec := findSubstr_spec pat w i hf
  have hwtd : w = (l.drop a).take (b - a) := by rw [hw, pySlice_eq_take_drop]
  -- the window prefix glues onto the document prefix
  have htake : l.take a ++ w.take i = l.take (a + i) := by
    rw [hwtd, List.take_take, Nat.min_eq_left (by omega), ← List.take_add]
  -- the matched pattern is the next pat.length characters of the document
  have hdropw : w.drop i = (l.drop (a + i)).take (b - a - i) := by
    rw [hwtd, List.drop_take, List.drop_drop]
  have hpatpre : (l.drop (a + i)).take pat.length = pat := by
    have h2 : ((l.drop (a + i)).take (b - a - i)).take pat.length = pat := by
      rw [← hdropw, hspec]
      exact List.take_left' rfl
    rwa [List.take_take, Nat.min_eq_left (by omega)] at h2
  have hpatseg : l.take (a + i) ++ pat = l.take (a + i + pat.length) := by
    rw [List.take_add l (a + i) pat.length, hpatpre]
  -- the window suffix glues onto the document suffix
  have hdrop : w.drop (i + pat.length) ++ l.drop b
      = l.drop (a + i + pat.length) := by
    have h1 : w.drop (i + pat.length)
        = (l.drop (a + i + pat.length)).take (b - (a + i + pat.length)) := by
      rw [hwtd, List.drop_take, List.drop_drop]
      have e1 : b - a - (i + pat.length) = b - (a + i + pat.length) := by omega
      have e2 : a + (i + pat.length) = a + i + pat.length := by omega
      rw [e1, e2]
    have h2 : l.drop b
        = (l.drop (a + i + pat.length)).drop (b - (a + i + pat.length)) := by
      rw [List.drop_drop]
      have e3 : a + i + pat.length + (b - (a + i + pat.length)) = b := by omega
      rw [e3]
    rw [h1, h2, List.take_append_drop]
  calc l.take a ++ (w.take i ++ (pat ++ tail) ++ w.drop (i + pat.length)) ++ l.drop b
      = (l.take a ++ w.take i) ++ pat ++ tail ++ (w.drop (i + pat.length) ++ l.drop b) := by
        simp [List.append_assoc]
    _ = l.take (a + i) ++ pat ++ tail ++ l.drop (a + i + pat.length) := by
        rw [htake, hdrop]
    _ = l.take (a + i + pat.length) ++ tail ++ l.drop (a + i + pat.length) := by
        rw [← hpatseg]

theorem repl_decomp :
    citeRepl = citePat ++ markerComma
    ∧ citetRepl = citetPat ++ markerComma
    ∧ citepRepl = citepPat ++ markerComma := by
  refine ⟨?_, ?_, ?_⟩ <;> rfl

theorem process_citation_guard_false (text : List Char) (start stop : Nat)
    (hg : (pySlice text start stop).take 4 ≠ citeWord ∨ start = 0) :
    process_citation text start stop = text := by
  simp only [process_citation, if_pos hg]

theorem process_citation_guard_true (text : List Char) (start stop : Nat)
    (h1 : (pySlice text start stop).take 4 = citeWord) (h2 : start ≠ 0) :
    process_citation text start stop
      = text.take (windowStart start)
        ++ applyPatterns patterns
            (pySlice text (windowStart start) (windowEnd text stop))
        ++ text.drop (windowEnd text stop) := by
  have hg : ¬ ((pySlice text start stop).take 4 ≠ citeWord ∨ start = 0) := by
    push_neg
    exact ⟨h1, h2⟩
  simp only [process_citation, if_neg hg]

/-- Case analysis of `process_citation`: either the text comes back
unchanged, or exactly one `<CITATION/>,` splice happened at a position
inside the search window. -/
theorem process_citation_cases (text : List Char) (start stop : Nat) :
    process_citation text start stop = text ∨
    ∃ m, windowStart start ≤ m ∧ m ≤ windowEnd text stop ∧
      windowEnd text stop ≤ text.length ∧
      process_citation text start stop
        = text.take m ++ markerComma ++ text.drop m := by
  by_cases hg : (pySlice text start stop).take 4 ≠ citeWord ∨ start = 0
  · exact Or.inl (process_citation_guard_false text start stop hg)
  · push_neg at hg
    obtain ⟨hguard, hs0⟩ := hg
    have hb := guard_bounds text start stop hguard
    have hse : windowStart start ≤ windowEnd text stop := by
      unfold windowStart windowEnd
      omega
    have he2 : windowEnd text stop ≤ text.length := by
      unfold windowEnd
      omega
    have hproc := process_citation_guard_true text start stop hguard hs0
    set s := windowStart start with hsdef
    set e2 := windowEnd text stop with hedef
    set w := pySlice text s e2 with hwdef
    rcases hf1 : findSubstr citePat w with _ | i1
    · rcases hf2 : findSubstr citetPat w with _ | i2
      · rcases hf3 : findSubstr citepPat w with _ | i3
        · -- no pattern matched: the window is reassembled unchanged
          left
          rw [hproc]
          simp only [applyPatterns, patterns, hf1, hf2, hf3]
          exact reassemble text s e2 hse
        · -- \citep{ matched
          right
          have hsp := splice_core text s e2 i3 citepPat markerComma
            (by decide) hse he2 hf3
          refine ⟨s + i3 + citepPat.length, by omega, hsp.2, he2, ?_⟩
          rw [hproc]
          simp only [applyPatterns, patterns, hf1, hf2, hf3]
          rw [repl_decomp.2.2]
          exact hsp.1
      · -- \citet{ matched
        right
        have hsp := splice_core text s e2 i2 citetPat markerComma
          (by decide) hse he2 hf2
        refine ⟨s + i2 + citetPat.length, by omega, hsp.2, he2, ?_⟩
        rw [hproc]
        simp only [applyPatterns, patterns, hf1, hf2]
        rw [repl_decomp.2.1]
        exact hsp.1
    · -- \cite{ matched
      right
      have hsp := splice_core text s e2 i1 citePat markerComma
        (by decide) hse he2 hf1
      refine ⟨s + i1 + citePat.length, by omega, hsp.2, he2, ?_⟩
      rw [hproc]
      simp only [applyPatterns, patterns, hf1]
      rw [repl_decomp.1]
      exact hsp.1

/-- Opening delimiter of a BibTeX block, including the mandatory newline
of the pattern `\[BibTeX START\]\n(.*?)\n\[BibTeX END\]`. -/
def bibOpenTag : List Char := "[BibTeX START]\n".data

/-- Closing delimiter of a BibTeX block, including the mandatory newline. -/
def bibCloseTag : List Char := "\n[BibTeX END]".data

/-- Opening delimiter of an explanation block, including the newline of
the pattern `\[EXPLANATION\]\n(.*?)\n\[EXPLANATION END\]`. -/
def explOpenTag : List Char := "[EXPLANATION]\n".data

/-- Closing delimiter of an explanation block, including the newline. -/
def explCloseTag : List Char := "\n[EXPLANATION END]".data

/-- Scanner for `re.findall` with a lazy delimited-block pattern: find the
leftmost opening tag, capture up to the nearest closing tag, continue
after the match.  The fuel argument only bounds the recursion; each step
consumes at least one character when the tags are non-empty, so passing
the input length as fuel never cuts a scan short. -/
def extractAux (openT closeT : List Char) : Nat → List Char → List (List Char)
  | 0, _ => []
  | Nat.succ fuel, s =>
    match findSubstr openT s with
    | none => []
    | some i =>
      let rest := s.drop (i + openT.length)
      match findSubstr closeT rest with
      | none => []
      | some j =>
        rest.take j :: extractAux openT closeT fuel (rest.drop (j + closeT.length))

/-- All non-overlapping lazy matches of `openT (.*?) closeT` in `s`, in
source order (`re.findall` with `re.DOTALL`). -/
def extractBlocks (openT closeT s : List Char) : List (List Char) :=
  extractAux openT closeT s.length s

/-- Python whitespace test used by `str.strip()`. -/
def pyIsSpace (c : Char) : Bool :=
  c = ' ' || c = '\t' || c = '\n' || c = '\r' || c = '\x0b' || c = '\x0c'

/-- Python `str.strip()`: remove leading and trailing whitespace. -/
def pyStrip (l : List Char) : List Char :=
  ((l.dropWhile pyIsSpace).reverse.dropWhile pyIsSpace).reverse

/-- An entry field mapping produced by the BibTeX-parsing collaborator. -/
abbrev BibFields : Type := List (List Char × List Char)

/-- The collaborator behind `bibtexparser.loads`: `none` models the
library raising, `some es` a parse result with entry list `es`. -/
abbrev BibLoads : Type := List Char → Option (List BibFields)

/-- Model of `CitationProcessor.parse_bibtex`: first entry of the parse result, or
an empty mapping when parsing fails or yields no entries. -/
def parse_bibtex (loads : BibLoads) (bibtex_str : List Char) : BibFields :=
  match loads bibtex_str with
  | none => []
  | some [] => []
  | some (e :: _) => e

/-- One element of the list built by `_parse_suggestions`. -/
structure SuggestionEntry where
  bibtex : List Char
  explanation : List Char
  parsed_paper : BibFields
deriving DecidableEq

/-- Model of `CitationProcessor._parse_suggestions`: extract the BibTeX blocks and
the explanation blocks, pair them positionally with `zip`, and build one
entry per pair. -/
def _parse_suggestions (loads : BibLoads) (suggestions : List Char) :
    List SuggestionEntry :=
  let bibtex_entries := extractBlocks bibOpenTag bibCloseTag suggestions
  let explanations := extractBlocks explOpenTag explCloseTag suggestions
  (bibtex_entries.zip explanations).map fun p =>
    ⟨pyStrip p.1, pyStrip p.2, parse_bibtex loads (pyStrip p.1)⟩

/-- The f-string prompt of `suggest_citations` around `latex_fragment`. -/
def suggestPrompt (latex_fragment : List Char) : List Char :=
  "\nPlease suggest appropriate papers to be cited area marked <CITATION/>. \nAvoid papers that are already cited right after <CITATION/> mark.\n\nFor each suggested paper, provide a BibTeX entry and a brief explanation of why it's relevant. \nFormat your response as follows for each suggestion:\n\n[BibTeX START]\n(BibTeX entry)\n[BibTeX END]\n\n[EXPLANATION]\n(Explanation)\n[EXPLANATION END]\n\n".data
    ++ latex_fragment ++ "\n                                ".data

/-- The f-string prompt of `suggest_citations_from_bibliography` around
`latex_fragment` and `bibliography`. -/
def suggestBibPrompt (latex_fragment bibliography : List Char) : List Char :=
  "\nPlease suggest appropriate papers to be cited in the area marked <CITATION/> using only the provided bibliography. \nAvoid papers that are already cited right after the <CITATION/> mark.\n\nFor each suggested paper, provide its BibTeX entry from the bibliography and a brief explanation of why it's relevant. \nFormat your response as follows for each suggestion:\n\n[BibTeX START]\n(BibTeX entry)\n[BibTeX END]\n\n[EXPLANATION]\n(Explanation)\n[EXPLANATION END]\n\nLaTeX Fragment:\n".data
    ++ latex_fragment ++ "\n\nBibliography:\n".data ++ bibliography
    ++ "\n                                ".data

/-- The LLM collaborator: prompt text to reply text. -/
abbrev Complete : Type := List Char → List Char

/-- Model of `CitationProcessor.suggest_citations`; the second component counts
how many times the LLM collaborator was invoked. -/
def suggest_citations (complete : Complete) (loads : BibLoads)
    (latex_fragment : List Char) : List SuggestionEntry × Nat :=
  if isSubstrOf marker latex_fragment = false then ([], 0)
  else (_parse_suggestions loads (complete (suggestPrompt latex_fragment)), 1)

/-- Model of `CitationProcessor.suggest_citations_from_bibliography`; the second
component counts LLM invocations. -/
def suggest_citations_from_bibliography (complete : Complete)
    (loads : BibLoads) (latex_fragment bibliography : List Char) :
    List SuggestionEntry × Nat :=
  if isSubstrOf marker latex_fragment = false then ([], 0)
  else
    (_parse_suggestions loads
      (complete (suggestBibPrompt latex_fragment bibliography)), 1)

/-- The response dictionary assembled for a processed selection. -/
structure SelectionResult where
  selected_text : List Char
  processed_text : List Char
  processed_start_end : Nat × Nat
  suggested_papers : List SuggestionEntry
  message : List Char
deriving DecidableEq

/-- Model of `CitationProcessor.process_selection`; the second component counts
LLM invocations. -/
def process_selection (complete : Complete) (loads : BibLoads)
    (text : List Char) (start stop : Nat) : SelectionResult × Nat :=
  let selected_text := pySlice text start stop
  let processed_text := process_citation text start stop
  let papers := suggest_citations complete loads processed_text
  (⟨selected_text, processed_text, (start, stop), papers.1,
    "Selection processed successfully".data⟩, papers.2)

/-- The body of the `/process-selection-with-bibliography` endpoint; the
second component counts LLM invocations. -/
def process_selection_with_bibliography_api (complete : Complete)
    (loads : BibLoads) (text : List Char) (start stop : Nat)
    (bibliography : List Char) : SelectionResult × Nat :=
  let selected_text := pySlice text start stop
  let processed_text := process_citation text start stop
  let papers :=
    suggest_citations_from_bibliography complete loads processed_text
      bibliography
  (⟨selected_text, processed_text, (start, stop), papers.1,
    "Selection processed successfully with provided bibliography".data⟩,
    papers.2)

theorem zip_getElem_some {α β : Type} :
    ∀ (l1 : List α) (l2 : List β) (i : Nat) (x : α) (y : β),
      l1[i]? = some x → l2[i]? = some y → (l1.zip l2)[i]? = some (x, y) := by
  intro l1
  induction l1 with
  | nil =>
    intro l2 i x y h1 _
    simp at h1
  | cons a as ih =>
    intro l2 i x y h1 h2
    cases l2 with
    | nil => simp at h2
    | cons b bs =>
      cases i with
      | zero => simp_all [List.zip_cons_cons]
      | succ n =>
        simp only [List.getElem?_cons_succ] at h1 h2
        simp only [List.zip_cons_cons, List.getElem?_cons_succ]
        exact ih bs n x y h1 h2

theorem extractAux_mem (openT closeT : List Char) :
    ∀ (fuel : Nat) (s b : List Char), b ∈ extractAux openT closeT fuel s →
      ∃ pre post, s = pre ++ openT ++ b ++ closeT ++ post := by
  intro fuel
  induction fuel with
  | zero =>
    intro s b hmem
    simp [extractAux] at hmem
  | succ fuel ih =>
    intro s b hmem
    simp only [extractAux] at hmem
    split at hmem
    · simp at hmem
    · rename_i i hop
      split at hmem
      · simp at hmem
      · rename_i j hcl
        simp only [List.mem_cons] at hmem
        have hspec1 := findSubstr_spec openT s i hop
        have hspec2 := findSubstr_spec closeT (s.drop (i + openT.length)) j hcl
        have hr1 : s.drop (i + openT.length)
            = (s.drop (i + openT.length)).take j
              ++ (closeT ++ (s.drop (i + openT.length)).drop (j + closeT.length)) := by
          conv_lhs => rw [← List.take_append_drop j (s.drop (i + openT.length))]
          rw [hspec2]
        rcases hmem with hb | hrec
        · refine ⟨s.take i, (s.drop (i + openT.length)).drop (j + closeT.length), ?_⟩
          subst hb
          conv_lhs => rw [← List.take_append_drop i s, hspec1]
          conv_lhs => rw [hr1]
          simp [List.append_assoc]
        · obtain ⟨pre, post, hded⟩ := ih _ b hrec
          refine ⟨s.take i ++ openT
              ++ (s.drop (i + openT.length)).take j ++ closeT ++ pre, post, ?_⟩
          conv_lhs => rw [← List.take_append_drop i s, hspec1]
          conv_lhs => rw [hr1]
          rw [hded]
          simp [List.append_assoc]

/-- The window `text[max(0, start-1):min(end+3, len(text))]` searched by
`process_citation` once the prefix check has passed. -/
def citationWindow (text : List Char) (start stop : Nat) : List Char :=
  pySlice text (windowStart start) (windowEnd text stop)

/-- C1: for in-range offsets, if `start == 0` or the selected text does
not start with the literal `"cite"`, `process_citation` returns the text
unchanged. -/
theorem c1_prefix_guard_no_op (text : List Char) (start stop : Nat)
    (hrange1 : start ≤ stop) (hrange2 : stop ≤ text.length)
    (h : start = 0 ∨ ¬ citeWord.isPrefixOf (pySlice text start stop) = true) :
    process_citation text start stop = text := by
  apply process_citation_guard_false
  rcases h with h | h
  · exact Or.inr h
  · refine Or.inl fun hc => h ?_
    apply isPrefixOf_of_take
    rw [show citeWord.length = 4 from rfl]
    exact hc

theorem c1_prefix_guard_no_op_witness :
    ((0 : Nat) ≤ 2 ∧ 2 ≤ "abcd".data.length
      ∧ ¬ citeWord.isPrefixOf (pySlice "abcd".data 0 2) = true)
    ∧ process_citation "abcd".data 0 2 = "abcd".data :=
  ⟨⟨by decide, by decide, by decide⟩,
    c1_prefix_guard_no_op "abcd".data 0 2 (by decide) (by decide)
      (Or.inr (by decide))⟩

/-- C2: once the prefix check passes, the window is searched for
`\cite{`, `\citet{`, `\citep{` in that fixed priority order; the first
pattern in priority order that occurs anywhere in the window wins, even
when another pattern occurs earlier, and only the leftmost occurrence of
the winning pattern is replaced by itself followed by `<CITATION/>,`,
every other character of the window staying in place. -/
theorem c2_priority_order (text : List Char) (start stop : Nat)
    (hguard : (pySlice text start stop).take 4 = citeWord)
    (hs0 : start ≠ 0) :
    (∀ i, findSubstr citePat (citationWindow text start stop) = some i →
      process_citation text start stop
        = text.take (windowStart start)
          ++ ((citationWindow text start stop).take i
              ++ (citePat ++ markerComma)
              ++ (citationWindow text start stop).drop (i + citePat.length))
          ++ text.drop (windowEnd text stop))
    ∧ (findSubstr citePat (citationWindow text start stop) = none →
      ∀ i, findSubstr citetPat (citationWindow text start stop) = some i →
      process_citation text start stop
        = text.take (windowStart start)
          ++ ((citationWindow text start stop).take i
              ++ (citetPat ++ markerComma)
              ++ (citationWindow text start stop).drop (i + citetPat.length))
          ++ text.drop (windowEnd text stop))
    ∧ (findSubstr citePat (citationWindow text start stop) = none →
      findSubstr citetPat (citationWindow text start stop) = none →
      ∀ i, findSubstr citepPat (citationWindow text start stop) = some i →
      process_citation text start stop
        = text.take (windowStart start)
          ++ ((citationWindow text start stop).take i
              ++ (citepPat ++ markerComma)
              ++ (citationWindow text start stop).drop (i + citepPat.length))
          ++ text.drop (windowEnd text stop))
    ∧ (findSubstr citePat (citationWindow text start stop) = none →
      findSubstr citetPat (citationWindow text start stop) = none →
      findSubstr citepPat (citationWindow text start stop) = none →
      process_citation text start stop = text) := by
  have hproc := process_citation_guard_true text start stop hguard hs0
  have hb := guard_bounds text start stop hguard
  have hse : windowStart start ≤ windowEnd text stop := by
    unfold windowStart windowEnd
    omega
  refine ⟨?_, ?_, ?_, ?_⟩
  · intro i hf
    rw [hproc]
    simp only [citationWindow] at hf ⊢
    simp only [applyPatterns, patterns, hf]
    rw [repl_decomp.1]
  · intro h1 i hf
    rw [hproc]
    simp only [citationWindow] at h1 hf ⊢
    simp only [applyPatterns, patterns, h1, hf]
    rw [repl_decomp.2.1]
  · intro h1 h2 i hf
    rw [hproc]
    simp only [citationWindow] at h1 h2 hf ⊢
    simp only [applyPatterns, patterns, h1, h2, hf]
    rw [repl_decomp.2.2]
  · intro h1 h2 h3
    rw [hproc]
    simp only [citationWindow] at h1 h2 h3
    simp only [applyPatterns, patterns, h1, h2, h3]
    exact reassemble text (windowStart start) (windowEnd text stop) hse

theorem c2_priority_order_witness :
    ((pySlice "see \\cite\x7bfoo\x7d here".data 5 9).take 4 = citeWord
      ∧ (5 : Nat) ≠ 0
      ∧ findSubstr citePat (citationWindow "see \\cite\x7bfoo\x7d here".data 5 9)
          = some 0)
    ∧ process_citation "see \\cite\x7bfoo\x7d here".data 5 9
        = ("see \\cite\x7bfoo\x7d here".data).take (windowStart 5)
          ++ ((citationWindow "see \\cite\x7bfoo\x7d here".data 5 9).take 0
              ++ (citePat ++ markerComma)
              ++ (citationWindow "see \\cite\x7bfoo\x7d here".data 5 9).drop
                  (0 + citePat.length))
          ++ ("see \\cite\x7bfoo\x7d here".data).drop
              (windowEnd "see \\cite\x7bfoo\x7d here".data 9) :=
  ⟨⟨by decide, by decide, by decide⟩,
    (c2_priority_order "see \\cite\x7bfoo\x7d here".data 5 9
        (by decide) (by decide)).1 0 (by decide)⟩

/-- C3: on the document `"see \cite{foo} here"` with `start = 5` (the
index of the `cite` inside the command) and `end = 9`, the result
contains the substring `\cite{<CITATION/>,foo}`. -/
theorem c3_cite_example :
    isSubstrOf "\\cite\x7b<CITATION/>,foo\x7d".data
      (process_citation "see \\cite\x7bfoo\x7d here".data 5 9) = true := by
  decide

/-- C6: `process_citation` either returns the text exactly unchanged, or
splices the 12-character string `<CITATION/>,` in at a single position,
so at most one marker is inserted and the result length is the original
length or the original length plus 12. -/
theorem c6_at_most_one_marker (text : List Char) (start stop : Nat) :
    markerComma.length = 12 ∧
    (process_citation text start stop = text ∨
      ∃ m, m ≤ text.length
        ∧ process_citation text start stop
            = text.take m ++ markerComma ++ text.drop m
        ∧ (process_citation text start stop).length = text.length + 12) := by
  refine ⟨rfl, ?_⟩
  rcases process_citation_cases text start stop with h | ⟨m, hm1, hm2, hm3, heq⟩
  · exact Or.inl h
  · right
    have hmlen : m ≤ text.length := le_trans hm2 hm3
    refine ⟨m, hmlen, heq, ?_⟩
    rw [heq]
    simp only [List.length_append, List.length_take, List.length_drop]
    rw [show markerComma.length = 12 from rfl]
    omega

/-- C7 (amended): the document before `windowStart` is always untouched;
and whenever a marker was actually inserted (the result differs from the
input), the result from position `windowEnd + len(marker) + 1` on equals
the input from position `windowEnd` on.  (As universally stated the
second equation fails when no insertion happens, see the
counterexample.) -/
theorem c7_frame_outside_window (text : List Char) (start stop : Nat) :
    (process_citation text start stop).take (windowStart start)
      = text.take (windowStart start)
    ∧ (process_citation text start stop ≠ text →
        (process_citation text start stop).drop
            (windowEnd text stop + marker.length + 1)
          = text.drop (windowEnd text stop)) := by
  rcases process_citation_cases text start stop with h | ⟨m, hm1, hm2, hm3, heq⟩
  · rw [h]
    exact ⟨rfl, fun hne => absurd rfl hne⟩
  · have hmlen : m ≤ text.length := le_trans hm2 hm3
    have htakeLen : (text.take m).length = m := by
      rw [List.length_take]
      omega
    constructor
    · rw [heq]
      have h1 : ((text.take m ++ markerComma) ++ text.drop m).take (windowStart start)
          = (text.take m ++ markerComma).take (windowStart start) := by
        apply List.take_append_of_le_length
        simp only [List.length_append, htakeLen]
        omega
      have h2 : (text.take m ++ markerComma).take (windowStart start)
          = (text.take m).take (windowStart start) := by
        apply List.take_append_of_le_length
        rw [htakeLen]
        exact hm1
      rw [h1, h2, List.take_take, Nat.min_eq_left hm1]
    · intro _
      rw [heq]
      have hsplit : windowEnd text stop + marker.length + 1
          = (text.take m ++ markerComma).length + (windowEnd text stop - m) := by
        simp only [List.length_append, htakeLen]
        rw [show markerComma.length = 12 from rfl,
            show marker.length = 11 from rfl]
        omega
      rw [hsplit, List.drop_append, List.drop_drop]
      congr 1
      omega

theorem c7_frame_counterexample :
    ¬ ((process_citation "acitexxxxxxxxxxxxxxxx".data 1 5).take (windowStart 1)
          = "acitexxxxxxxxxxxxxxxx".data.take (windowStart 1)
      ∧ (process_citation "acitexxxxxxxxxxxxxxxx".data 1 5).drop
            (windowEnd "acitexxxxxxxxxxxxxxxx".data 5 + marker.length + 1)
          = "acitexxxxxxxxxxxxxxxx".data.drop
              (windowEnd "acitexxxxxxxxxxxxxxxx".data 5)) := by
  decide

theorem c7_frame_outside_window_witness :
    process_citation "see \\cite\x7bfoo\x7d here".data 5 9
        ≠ "see \\cite\x7bfoo\x7d here".data
    ∧ (process_citation "see \\cite\x7bfoo\x7d here".data 5 9).drop
          (windowEnd "see \\cite\x7bfoo\x7d here".data 9 + marker.length + 1)
        = "see \\cite\x7bfoo\x7d here".data.drop
            (windowEnd "see \\cite\x7bfoo\x7d here".data 9) :=
  ⟨by decide,
    (c7_frame_outside_window "see \\cite\x7bfoo\x7d here".data 5 9).2 (by decide)⟩

/-- C4: `_parse_suggestions` pairs the extracted BibTeX blocks with the
extracted explanation blocks positionally, returning exactly the minimum
of the two counts in source order and silently dropping trailing
unmatched blocks; the empty reply yields the empty list. -/
theorem c4_positional_pairing :
    (∀ (loads : BibLoads) (raw : List Char),
      (_parse_suggestions loads raw).length
        = min (extractBlocks bibOpenTag bibCloseTag raw).length
            (extractBlocks explOpenTag explCloseTag raw).length)
    ∧ (∀ (loads : BibLoads) (raw : List Char) (i : Nat) (bx ex : List Char),
        (extractBlocks bibOpenTag bibCloseTag raw)[i]? = some bx →
        (extractBlocks explOpenTag explCloseTag raw)[i]? = some ex →
        (_parse_suggestions loads raw)[i]?
          = some ⟨pyStrip bx, pyStrip ex, parse_bibtex loads (pyStrip bx)⟩)
    ∧ (∀ loads : BibLoads, _parse_suggestions loads [] = []) := by
  refine ⟨?_, ?_, ?_⟩
  · intro loads raw
    simp [_parse_suggestions, List.length_map, List.length_zip]
  · intro loads raw i bx ex h1 h2
    simp only [_parse_suggestions, List.getElem?_map]
    rw [zip_getElem_some _ _ i bx ex h1 h2]
    rfl
  · intro loads
    rfl

/-- An LLM reply with three BibTeX blocks but only two explanations. -/
def sampleReply : List Char :=
  "[BibTeX START]\n@a\n[BibTeX END]\n[EXPLANATION]\nE1\n[EXPLANATION END]\n[BibTeX START]\n@b\n[BibTeX END]\n[EXPLANATION]\nE2\n[EXPLANATION END]\n[BibTeX START]\n@c\n[BibTeX END]".data

set_option maxRecDepth 40000 in
theorem c4_positional_pairing_witness :
    ((extractBlocks bibOpenTag bibCloseTag sampleReply)[1]? = some "@b".data
      ∧ (extractBlocks explOpenTag explCloseTag sampleReply)[1]? = some "E2".data)
    ∧ (_parse_suggestions (fun _ => none) sampleReply)[1]?
        = some ⟨pyStrip "@b".data, pyStrip "E2".data,
            parse_bibtex (fun _ => none) (pyStrip "@b".data)⟩ :=
  ⟨⟨by decide, by decide⟩,
    c4_positional_pairing.2.1 (fun _ => none) sampleReply 1 "@b".data "E2".data
      (by decide) (by decide)⟩

/-- C5: when the processed fragment does not contain `<CITATION/>`, both
suggestion operations return the empty list and perform zero LLM
invocations; hence `process_selection` performs no LLM call when
`process_citation` changed nothing and the original text lacked the
marker. -/
theorem c5_no_marker_skips_llm (complete : Complete) (loads : BibLoads) :
    (∀ frag, isSubstrOf marker frag = false →
      suggest_citations complete loads frag = ([], 0))
    ∧ (∀ frag bib, isSubstrOf marker frag = false →
      suggest_citations_from_bibliography complete loads frag bib = ([], 0))
    ∧ (∀ (text : List Char) (start stop : Nat),
        process_citation text start stop = text →
        isSubstrOf marker text = false →
        (process_selection complete loads text start stop).1.suggested_papers = []
        ∧ (process_selection complete loads text start stop).2 = 0) := by
  refine ⟨?_, ?_, ?_⟩
  · intro frag h
    simp [suggest_citations, h]
  · intro frag bib h
    simp [suggest_citations_from_bibliography, h]
  · intro text start stop hpc h
    constructor
    · simp [process_selection, suggest_citations, hpc, h]
    · simp [process_selection, suggest_citations, hpc, h]

theorem c5_no_marker_skips_llm_witness :
    (isSubstrOf marker "hello world".data = false
      ∧ process_citation "hello world".data 0 5 = "hello world".data)
    ∧ (process_selection (fun p => p) (fun _ => none) "hello world".data 0 5).1.suggested_papers = []
    ∧ (process_selection (fun p => p) (fun _ => none) "hello world".data 0 5).2 = 0 :=
  ⟨⟨by decide, by decide⟩,
    (c5_no_marker_skips_llm (fun p => p) (fun _ => none)).2.2
      "hello world".data 0 5 (by decide) (by decide)⟩

/-- C8: `parse_bibtex` never propagates a failure: a raising parse or an
empty entry list give the empty mapping, otherwise the first entry is
returned; within `_parse_suggestions` the parser collaborator can only
influence each entry's `parsed_paper` field, never the number of entries
nor their `bibtex`/`explanation` fields. -/
theorem c8_parse_bibtex_total :
    (∀ (loads : BibLoads) (s : List Char), loads s = none →
      parse_bibtex loads s = [])
    ∧ (∀ (loads : BibLoads) (s : List Char), loads s = some [] →
      parse_bibtex loads s = [])
    ∧ (∀ (loads : BibLoads) (s : List Char) (e : BibFields)
        (rest : List BibFields), loads s = some (e :: rest) →
      parse_bibtex loads s = e)
    ∧ (∀ (loads1 loads2 : BibLoads) (raw : List Char),
        (_parse_suggestions loads1 raw).map (fun x => (x.bibtex, x.explanation))
          = (_parse_suggestions loads2 raw).map (fun x => (x.bibtex, x.explanation))
        ∧ (_parse_suggestions loads1 raw).length
          = (_parse_suggestions loads2 raw).length) := by
  refine ⟨?_, ?_, ?_, ?_⟩
  · intro loads s h
    simp [parse_bibtex, h]
  · intro loads s h
    simp [parse_bibtex, h]
  · intro loads s e rest h
    simp [parse_bibtex, h]
  · intro loads1 loads2 raw
    constructor
    · simp [_parse_suggestions, List.map_map]
    · simp [_parse_suggestions, List.length_map]

theorem c8_parse_bibtex_total_witness :
    ((fun _ : List Char => (none : Option (List BibFields))) "@bad".data = none)
    ∧ parse_bibtex (fun _ => none) "@bad".data = [] :=
  ⟨rfl, c8_parse_bibtex_total.1 (fun _ => none) "@bad".data rfl⟩

/-- C9: every block captured by `_parse_suggestions` comes from an
occurrence of the opening delimiter immediately followed by a newline
and the closing delimiter immediately preceded by a newline, with those
two sentinel newlines excluded from the captured content (the delimiter
constants below carry the newline); a delimited block written on a
single line yields no entry. -/
theorem c9_sentinel_newlines :
    (∀ raw b, b ∈ extractBlocks bibOpenTag bibCloseTag raw →
      ∃ pre post, raw = pre ++ bibOpenTag ++ b ++ bibCloseTag ++ post)
    ∧ (∀ raw b, b ∈ extractBlocks explOpenTag explCloseTag raw →
      ∃ pre post, raw = pre ++ explOpenTag ++ b ++ explCloseTag ++ post)
    ∧ (∀ loads : BibLoads,
        _parse_suggestions loads
          "[BibTeX START]@x[BibTeX END]\n[EXPLANATION]\nok\n[EXPLANATION END]".data
          = []) := by
  refine ⟨?_, ?_, ?_⟩
  · intro raw b hmem
    exact extractAux_mem bibOpenTag bibCloseTag raw.length raw b hmem
  · intro raw b hmem
    exact extractAux_mem explOpenTag explCloseTag raw.length raw b hmem
  · intro loads
    rfl

set_option maxRecDepth 40000 in
theorem c9_sentinel_newlines_witness :
    "@a".data ∈ extractBlocks bibOpenTag bibCloseTag
        "[BibTeX START]\n@a\n[BibTeX END]".data
    ∧ ∃ pre post, "[BibTeX START]\n@a\n[BibTeX END]".data
        = pre ++ bibOpenTag ++ "@a".data ++ bibCloseTag ++ post :=
  ⟨by decide,
    c9_sentinel_newlines.1 "[BibTeX START]\n@a\n[BibTeX END]".data "@a".data
      (by decide)⟩

/-- C10: both selection-processing endpoints report the offsets exactly
as supplied and the selected text as sliced from the original document,
whether or not a marker was inserted. -/
theorem c10_response_offsets (complete : Complete) (loads : BibLoads)
    (text : List Char) (start stop : Nat) (bibliography : List Char) :
    (process_selection complete loads text start stop).1.processed_start_end
        = (start, stop)
    ∧ (process_selection complete loads text start stop).1.selected_text
        = pySlice text start stop
    ∧ (process_selection_with_bibliography_api complete loads text start stop
          bibliography).1.processed_start_end = (start, stop)
    ∧ (process_selection_with_bibliography_api complete loads text start stop
          bibliography).1.selected_text = pySlice text start stop :=
  ⟨rfl, rfl, rfl, rfl⟩
